import Mathlib

/-!
Shallow embedding of the rendering core of `src/drawer.js`
(the `drawWithImage` function, lines 165-274, together with its helpers
`TYPE_COLORS` (lines 2-13) and `updateLegend` (lines 284-307)).

Modelling conventions:

* JavaScript numbers are modelled by `JNum`: a finite rational, `Infinity`,
  `-Infinity` or `NaN`.  All numeric fields of the layout document are finite
  rationals; the only operations in `drawWithImage` that can produce a
  non-finite value from finite inputs are the two divisions computing the
  scale factors (lines 180-181), so the embedding divides via `JNum.jdiv`
  and propagates `JNum` through the subsequent multiplications/additions.
* The mutable canvas is modelled by a trace of `CanvasOp` values recorded in
  program order.  Pixel contents, dash patterns, fonts and the label-drawing
  geometry of lines 250-265 (which depends on `ctx.measureText`, a font
  metric the embedding cannot compute) are not modelled; no claim observes
  them.  The CSS string produced by `hexToRgba` (lines 276-282) is modelled
  by recording the hex colour together with the alpha value; the decimal
  formatting of the `rgba(...)` string is presentation detail.
* `Array.prototype.sort` with comparator `(a, b) => a.z_index - b.z_index`
  (line 217) is a stable sort.  A missing or non-numeric `z_index` is
  modelled as `none`; the subtraction then evaluates to `NaN`, which the
  ECMA-262 `SortCompare` operation turns into `+0`, i.e. the two elements
  compare as equal.  `sortBoxes` is a stable insertion sort honouring that
  comparator; on inputs whose comparator is consistent (in particular
  whenever all `z_index` are numeric, or only two elements are compared)
  every conforming stable sort produces this result.
* The spread copy `[...section.bounding_boxes]` at line 217 means the
  original array is never mutated; the embedding threads the sections back
  out unchanged into `RenderResult.finalLayout`.
* `drawWithImage` performs no validation and, for the documents modelled
  here (numeric fields present, `sections` an array), no operation in it can
  throw; the embedding is accordingly a total function into `RenderResult`
  with no error outcome.
-/

namespace Drawer

/-- A JavaScript number: a finite rational, `Infinity`, `-Infinity` or `NaN`. -/
inductive JNum where
  | fin (q : ℚ)
  | inf
  | ninf
  | nan
deriving DecidableEq

namespace JNum

/-- JS division of two finite numbers (`a / b`): division by zero yields a
signed infinity, `0 / 0` yields `NaN`. -/
def jdiv (a b : ℚ) : JNum :=
  if b = 0 then
    if 0 < a then inf else if a < 0 then ninf else nan
  else
    fin (a / b)

/-- JS multiplication of a finite number `c` with an arbitrary number. -/
def jmulF (c : ℚ) (x : JNum) : JNum :=
  match x with
  | fin q => fin (c * q)
  | inf => if 0 < c then inf else if c < 0 then ninf else nan
  | ninf => if 0 < c then ninf else if c < 0 then inf else nan
  | nan => nan

/-- JS addition. -/
def jadd : JNum → JNum → JNum
  | fin a, fin b => fin (a + b)
  | nan, _ => nan
  | _, nan => nan
  | inf, ninf => nan
  | ninf, inf => nan
  | inf, _ => inf
  | _, inf => inf
  | ninf, _ => ninf
  | _, ninf => ninf

/-- JS comparison `x <= y` (false whenever `NaN` is involved). -/
def jle : JNum → JNum → Bool
  | nan, _ => false
  | _, nan => false
  | ninf, _ => true
  | _, inf => true
  | fin a, fin b => decide (a ≤ b)
  | inf, _ => false
  | _, ninf => false

end JNum

/-- `box_2d`: a rectangle in logical units relative to its section. -/
structure Box2d where
  left : ℚ
  top : ℚ
  width : ℚ
  height : ℚ
deriving DecidableEq

/-- `element`: only the `type` field is consumed by the renderer. -/
structure Element where
  type : String
deriving DecidableEq

/-- A bounding-box entry.  `box_2d` and `element` may be absent (line 225
checks for that); `z_index = none` models a missing or non-numeric
`z_index` (the comparator at line 217 then evaluates to `NaN`). -/
structure BoundingBox where
  box_2d : Option Box2d
  element : Option Element
  z_index : Option ℚ
deriving DecidableEq

/-- A layout section.  `bounding_boxes = none` models the field being absent
or not an array (line 215 checks `section.bounding_boxes &&
Array.isArray(section.bounding_boxes)`). -/
structure Section where
  name : String
  height : ℚ
  bounding_boxes : Option (List BoundingBox)
deriving DecidableEq

/-- The layout document. -/
structure Layout where
  page_width : ℚ
  sections : List Section
deriving DecidableEq

/-- The options record destructured at lines 166-170. -/
structure Options where
  showLabels : Bool
  showSections : Bool
  colorByType : Bool
deriving DecidableEq

/-- The decoded image: pixel dimensions are natural numbers. -/
structure Img where
  width : ℕ
  height : ℕ
deriving DecidableEq

/-- The `TYPE_COLORS` palette object, lines 2-13. -/
def TYPE_COLORS : List (String × String) :=
  [("text", "#ff4444"), ("button", "#44ff44"), ("svg", "#4444ff"),
   ("image", "#ffaa00"), ("social_icons", "#ff44ff"), ("map", "#44ffff"),
   ("video", "#ff8844"), ("gallery", "#88ff44"), ("contact_form", "#8844ff"),
   ("section", "#ffffff")]

/-- Property lookup `TYPE_COLORS[t]` (`none` = `undefined`). -/
def lookupColor (t : String) : Option String :=
  (TYPE_COLORS.find? (fun p => p.1 = t)).map (fun p => p.2)

/-- Line 238: `colorByType ? (TYPE_COLORS[elementType] || '#ff4444') :
'#ff4444'` (all palette values are non-empty strings, so `||` is
default-on-`undefined`). -/
def chooseColor (colorByType : Bool) (t : String) : String :=
  if colorByType then (lookupColor t).getD "#ff4444" else "#ff4444"

/-- The comparator `(a, b) => a.z_index - b.z_index` of line 217 returned a
negative number, i.e. `a` sorts strictly before `b`.  If either `z_index`
is missing the subtraction is `NaN`, which ECMA-262 `SortCompare` treats as
`+0` ("equal"), hence `false` here. -/
def zLtB (a b : BoundingBox) : Bool :=
  match a.z_index, b.z_index with
  | some x, some y => decide (x < y)
  | _, _ => false

/-- Insert `b` into an already sorted list: `b` passes over exactly the
elements that compare strictly before it, so equal elements keep their
original relative order (stability). -/
def insertZ (b : BoundingBox) : List BoundingBox → List BoundingBox
  | [] => [b]
  | c :: cs => if zLtB c b then c :: insertZ b cs else b :: c :: cs

/-- The stable sort `[...section.bounding_boxes].sort((a, b) => a.z_index -
b.z_index)` of line 217. -/
def sortBoxes : List BoundingBox → List BoundingBox
  | [] => []
  | b :: bs => insertZ b (sortBoxes bs)

/-- One recorded canvas mutation.  `fillRect` records the hex colour and the
alpha passed to `hexToRgba`; `label` stands for the label background and
text of lines 250-265, whose geometry depends on `ctx.measureText`. -/
inductive CanvasOp where
  | setSize (w h : ℕ)
  | drawImage
  | strokeRect (color : String) (x y w h : JNum)
  | fillRect (color : String) (alpha : ℚ) (x y w h : JNum)
  | fillText (text : String) (x y : JNum)
  | label (text : String)
deriving DecidableEq

/-- The stroke/fill pair drawn for one bounding box (lines 232-247):
the scaled rectangle and the resolved colour. -/
structure DrawnBox where
  type : String
  color : String
  x : JNum
  y : JNum
  width : JNum
  height : JNum
deriving DecidableEq

/-- Lines 227-247 for a box whose `box_2d` and `element` are both present:
the scaled rectangle (lines 232-235) and the resolved colour (line 238). -/
def drawRec (sX sY sectionTop : JNum) (colorByType : Bool)
    (bd : Box2d) (e : Element) : DrawnBox :=
  { type := e.type
    color := chooseColor colorByType e.type
    x := JNum.jmulF bd.left sX
    y := JNum.jadd sectionTop (JNum.jmulF bd.top sY)
    width := JNum.jmulF bd.width sX
    height := JNum.jmulF bd.height sY }

/-- Line 225: `if (!box_2d || !element) return;` — `none` when the entry is
skipped, otherwise the drawn record. -/
def drawOfBox (sX sY sectionTop : JNum) (colorByType : Bool)
    (b : BoundingBox) : Option DrawnBox :=
  match b.box_2d, b.element with
  | some bd, some e => some (drawRec sX sY sectionTop colorByType bd e)
  | _, _ => none

/-- `usedTypes.add(elementType)` (line 229): a JS `Set` keeps insertion
order, modelled as append-if-new. -/
def addUsed (u : List String) (t : String) : List String :=
  if t ∈ u then u else u ++ [t]

/-- The canvas operations emitted for one drawn box: stroke (line 243), the
semi-transparent fill at alpha 0.1 (lines 246-247), and the label block
(lines 250-265) when labels are enabled. -/
def boxOps (showLabels : Bool) (d : DrawnBox) : List CanvasOp :=
  [CanvasOp.strokeRect d.color d.x d.y d.width d.height,
   CanvasOp.fillRect d.color (1 / 10) d.x d.y d.width d.height]
    ++ (if showLabels then [CanvasOp.label d.type] else [])

/-- The body of the `sortedBoxes.forEach` callback, lines 219-266, acting on
the accumulated `(usedTypes, drawnBoxes, canvas trace)`. -/
def processBox (sX sY sectionTop : JNum) (colorByType showLabels : Bool)
    (acc : List String × List DrawnBox × List CanvasOp) (b : BoundingBox) :
    List String × List DrawnBox × List CanvasOp :=
  match drawOfBox sX sY sectionTop colorByType b with
  | some d => (addUsed acc.1 d.type, acc.2.1 ++ [d], acc.2.2 ++ boxOps showLabels d)
  | none => acc

/-- The mutable state threaded through the `layout.sections.forEach` loop of
lines 190-270, plus the recorded traces. -/
structure LoopState where
  sectionYOffset : ℚ
  usedTypes : List String
  drawnBoxes : List DrawnBox
  sectionTops : List JNum
  outSections : List Section
  ops : List CanvasOp
deriving DecidableEq

/-- The section-boundary drawing of lines 198-212: a dashed full-width
rectangle and the section name, emitted only when `showSections` is on. -/
def sectionHeaderOps (cw : ℕ) (sY : JNum) (showSections : Bool)
    (offset : ℚ) (s : Section) : List CanvasOp :=
  if showSections then
    [CanvasOp.strokeRect "#ffffff" (JNum.fin 0) (JNum.jmulF offset sY)
       (JNum.fin cw) (JNum.jmulF s.height sY),
     CanvasOp.fillText ("Section: " ++ s.name) (JNum.fin 10)
       (JNum.jadd (JNum.jmulF offset sY) (JNum.fin 20))]
  else []

/-- The body of the `layout.sections.forEach` callback, lines 193-270.
`sectionTops` records the pixel offset `sectionYOffset * scaleY` computed at
line 194 for each section.  `outSections` re-emits the section: line 217
sorts a spread copy `[...section.bounding_boxes]`, so the section itself is
left unchanged. -/
def processSection (cw : ℕ) (sX sY : JNum) (o : Options)
    (st : LoopState) (s : Section) : LoopState :=
  let sectionTop := JNum.jmulF st.sectionYOffset sY
  let ops0 := st.ops ++ sectionHeaderOps cw sY o.showSections st.sectionYOffset s
  let acc :=
    match s.bounding_boxes with
    | some bs =>
        (sortBoxes bs).foldl
          (processBox sX sY sectionTop o.colorByType o.showLabels)
          (st.usedTypes, st.drawnBoxes, ops0)
    | none => (st.usedTypes, st.drawnBoxes, ops0)
  { sectionYOffset := st.sectionYOffset + s.height
    usedTypes := acc.1
    drawnBoxes := acc.2.1
    sectionTops := st.sectionTops ++ [sectionTop]
    outSections := st.outSections ++ [s]
    ops := acc.2.2 }

/-- Line 173: `layout.sections.reduce((sum, section) => sum + section.height, 0)`. -/
def sumHeights (l : List Section) : ℚ :=
  l.foldl (fun sum s => sum + s.height) 0

/-- `updateLegend`, lines 284-307: empty unless colouring by type and at
least one type was used; otherwise one `(type, colour)` entry per used type
in `Set` insertion order (the swatch shown is `hexToRgba(colour, 0.3)` with
border `colour`). -/
def updateLegend (usedTypes : List String) (colorByType : Bool) :
    List (String × String) :=
  if !colorByType || usedTypes.isEmpty then []
  else usedTypes.map (fun t => (t, (lookupColor t).getD "#ff4444"))

/-- Everything `drawWithImage` leaves behind: the resized canvas and its
recorded operation trace, the scale factors, the per-section pixel offsets,
the drawn boxes in draw order, the used-types set, the legend, and the
layout document as it stands after the call. -/
structure RenderResult where
  canvasWidth : ℕ
  canvasHeight : ℕ
  scaleX : JNum
  scaleY : JNum
  sectionTops : List JNum
  finalYOffset : ℚ
  drawnBoxes : List DrawnBox
  usedTypes : List String
  ops : List CanvasOp
  legend : List (String × String)
  finalLayout : Layout
deriving DecidableEq

/-- `drawWithImage(img, layout, options)`, lines 165-274.  Computes the
total logical height (line 173), resizes the canvas (lines 176-177),
computes the scale factors (lines 180-181), draws the base image (line 184),
runs the section loop, and updates the legend (line 273). -/
def drawWithImage (img : Img) (layout : Layout) (o : Options) : RenderResult :=
  let totalHeight := sumHeights layout.sections
  let scaleX := JNum.jdiv (img.width : ℚ) layout.page_width
  let scaleY := JNum.jdiv (img.height : ℚ) totalHeight
  let st0 : LoopState :=
    { sectionYOffset := 0, usedTypes := [], drawnBoxes := [], sectionTops := []
      outSections := [], ops := [CanvasOp.setSize img.width img.height, CanvasOp.drawImage] }
  let st := layout.sections.foldl (processSection img.width scaleX scaleY o) st0
  { canvasWidth := img.width
    canvasHeight := img.height
    scaleX := scaleX
    scaleY := scaleY
    sectionTops := st.sectionTops
    finalYOffset := st.sectionYOffset
    drawnBoxes := st.drawnBoxes
    usedTypes := st.usedTypes
    ops := st.ops
    legend := updateLegend st.usedTypes o.colorByType
    finalLayout := { page_width := layout.page_width, sections := st.outSections } }

/-! ### Characterization helpers

The following definitions are not part of the embedding; they are closed
forms used to state and prove properties of the loop in `drawWithImage`. -/

/-- Decidable test `z_index = some k`, used to state sort stability. -/
def zEqB (k : ℚ) (x : BoundingBox) : Bool :=
  decide (x.z_index = some k)

/-- Fold `addUsed` over a list of types (the accumulated `Set.add` calls). -/
def addAll (u : List String) (ts : List String) : List String :=
  ts.foldl addUsed u

/-- Deduplicate keeping the first occurrence of each element, in order:
the contents of a JS `Set` after inserting the list left to right. -/
def firstSeen (ts : List String) : List String :=
  addAll [] ts

/-- Closed form of the boxes drawn from one (already sorted) box list. -/
def drawnOf (sX sY sectionTop : JNum) (colorByType : Bool)
    (m : List BoundingBox) : List DrawnBox :=
  m.filterMap (drawOfBox sX sY sectionTop colorByType)

/-- Closed form of the boxes drawn from a section list, given the logical
vertical offset accumulated so far. -/
def drawnOfSections (sX sY : JNum) (colorByType : Bool) :
    ℚ → List Section → List DrawnBox
  | _, [] => []
  | start, s :: rest =>
      (match s.bounding_boxes with
       | some bs =>
           drawnOf sX sY (JNum.jmulF start sY) colorByType (sortBoxes bs)
       | none => []) ++
        drawnOfSections sX sY colorByType (start + s.height) rest

/-- The logical vertical offsets at which successive sections start:
`start, start + h₀, start + h₀ + h₁, ...` (one entry per section). -/
def offsetList : ℚ → List Section → List ℚ
  | _, [] => []
  | start, s :: rest => start :: offsetList (start + s.height) rest

/-- The element types of the well-formed (both `box_2d` and `element`
present) bounding boxes of a section list, in document order. -/
def wfTypesOf : List Section → List String
  | [] => []
  | s :: rest =>
      (match s.bounding_boxes with
       | some bs =>
           bs.filterMap (fun b =>
             match b.box_2d, b.element with
             | some _, some e => some e.type
             | _, _ => none)
       | none => []) ++ wfTypesOf rest

/-- The element types of the well-formed bounding boxes of a document. -/
def wfTypes (layout : Layout) : List String :=
  wfTypesOf layout.sections

/-- Number of well-formed bounding-box entries in one section. -/
def sectionWfCount (s : Section) : ℕ :=
  match s.bounding_boxes with
  | some bs => bs.countP (fun b => b.box_2d.isSome && b.element.isSome)
  | none => 0

/-! ### Lemmas about the stable z-index sort -/

theorem insertZ_perm (b : BoundingBox) (l : List BoundingBox) :
    List.Perm (insertZ b l) (b :: l) := by
  induction l with
  | nil => exact List.Perm.refl _
  | cons c cs ih =>
    simp only [insertZ]
    split
    · exact (ih.cons c).trans (List.Perm.swap b c cs)
    · exact List.Perm.refl _

theorem sortBoxes_perm (l : List BoundingBox) :
    List.Perm (sortBoxes l) l := by
  induction l with
  | nil => exact List.Perm.refl _
  | cons b bs ih => exact (insertZ_perm b (sortBoxes bs)).trans (ih.cons b)

theorem zLtB_true {a b : BoundingBox} (h : zLtB a b = true) :
    ∃ x y, a.z_index = some x ∧ b.z_index = some y ∧ x < y := by
  unfold zLtB at h
  cases ha : a.z_index with
  | none => rw [ha] at h; cases b.z_index <;> simp_all
  | some x =>
    cases hb : b.z_index with
    | none => rw [ha, hb] at h; simp_all
    | some y => rw [ha, hb] at h; exact ⟨x, y, rfl, rfl, by simpa using h⟩

theorem zLtB_false_le {a b : BoundingBox}
    (ha : a.z_index.isSome) (hb : b.z_index.isSome) (h : zLtB a b = false) :
    b.z_index.getD 0 ≤ a.z_index.getD 0 := by
  obtain ⟨x, hx⟩ := Option.isSome_iff_exists.mp ha
  obtain ⟨y, hy⟩ := Option.isSome_iff_exists.mp hb
  unfold zLtB at h
  rw [hx, hy] at h
  simp only [hx, hy, Option.getD_some]
  exact le_of_not_lt (by simpa using h)

theorem zLtB_of_none {c b : BoundingBox} (h : b.z_index = none) :
    zLtB c b = false := by
  unfold zLtB
  rw [h]
  cases c.z_index <;> rfl

theorem head_insertZ (b : BoundingBox) (l : List BoundingBox) :
    (insertZ b l).head? = some b ∨ (insertZ b l).head? = l.head? := by
  cases l with
  | nil => left; rfl
  | cons c cs =>
    simp only [insertZ]
    split
    · right; rfl
    · left; rfl

theorem chain_insertZ (b : BoundingBox) (l : List BoundingBox)
    (hb : b.z_index.isSome) (hl : ∀ x ∈ l, x.z_index.isSome)
    (hc : List.Chain' (fun x y => x.z_index.getD 0 ≤ y.z_index.getD 0) l) :
    List.Chain' (fun x y => x.z_index.getD 0 ≤ y.z_index.getD 0) (insertZ b l) := by
  induction l with
  | nil => simp [insertZ]
  | cons c cs ih =>
    have hcsome : c.z_index.isSome := hl c (by simp)
    have hcs : ∀ x ∈ cs, x.z_index.isSome := fun x hx => hl x (by simp [hx])
    simp only [insertZ]
    split
    case isTrue h =>
      rw [List.chain'_cons']
      refine ⟨?_, ih hcs hc.tail⟩
      intro y hy
      rcases head_insertZ b cs with h1 | h1
      · rw [h1] at hy
        simp only [Option.mem_def, Option.some_inj] at hy
        subst hy
        obtain ⟨x, z, hx, hz, hlt⟩ := zLtB_true h
        simp [hx, hz, le_of_lt hlt]
      · rw [h1] at hy
        exact (List.chain'_cons'.mp hc).1 y hy
    case isFalse h =>
      rw [List.chain'_cons]
      exact ⟨zLtB_false_le hcsome hb (by simpa using h), hc⟩

theorem chain_sortBoxes (l : List BoundingBox)
    (hl : ∀ x ∈ l, x.z_index.isSome) :
    List.Chain' (fun x y => x.z_index.getD 0 ≤ y.z_index.getD 0) (sortBoxes l) := by
  induction l with
  | nil => simp [sortBoxes]
  | cons b bs ih =>
    have hbs : ∀ x ∈ bs, x.z_index.isSome := fun x hx => hl x (by simp [hx])
    exact chain_insertZ b (sortBoxes bs) (hl b (by simp))
      (fun x hx => hbs x ((sortBoxes_perm bs).mem_iff.mp hx)) (ih hbs)

theorem filter_insertZ (k : ℚ) (b : BoundingBox) (l : List BoundingBox) :
    (insertZ b l).filter (zEqB k) = (b :: l).filter (zEqB k) := by
  induction l with
  | nil => rfl
  | cons c cs ih =>
    simp only [insertZ]
    split
    case isTrue h =>
      by_cases hb : zEqB k b = true
      · have hcf : zEqB k c = false := by
          obtain ⟨x, y, hx, hy, hlt⟩ := zLtB_true h
          simp only [zEqB, decide_eq_true_eq] at hb
          rw [hy] at hb
          simp only [Option.some_inj] at hb
          subst hb
          simp only [zEqB, decide_eq_false_iff_not]
          intro hck
          rw [hck] at hx
          simp only [Option.some_inj] at hx
          subst hx
          exact absurd hlt (lt_irrefl _)
        simp [List.filter_cons, hcf, hb, ih]
      · have hbf : zEqB k b = false := by simpa using hb
        simp [List.filter_cons, hbf, ih]
    case isFalse h => rfl

theorem filter_sortBoxes (k : ℚ) (l : List BoundingBox) :
    (sortBoxes l).filter (zEqB k) = l.filter (zEqB k) := by
  induction l with
  | nil => rfl
  | cons b bs ih =>
    show (insertZ b (sortBoxes bs)).filter (zEqB k) = _
    rw [filter_insertZ, List.filter_cons, List.filter_cons, ih]

/-! ### Lemmas about the used-types set -/

theorem mem_addUsed {t : String} (u : List String) (s : String) :
    t ∈ addUsed u s ↔ t ∈ u ∨ t = s := by
  unfold addUsed
  split
  case isTrue h =>
    constructor
    · exact Or.inl
    · rintro (ht | rfl)
      · exact ht
      · exact h
  case isFalse h => simp

theorem mem_addAll {t : String} (ts : List String) :
    ∀ u, t ∈ addAll u ts ↔ t ∈ u ∨ t ∈ ts := by
  induction ts with
  | nil => intro u; simp [addAll]
  | cons s ss ih =>
    intro u
    show t ∈ addAll (addUsed u s) ss ↔ _
    rw [ih, mem_addUsed]
    simp [or_assoc]

theorem addAll_append (u a b : List String) :
    addAll u (a ++ b) = addAll (addAll u a) b := by
  simp [addAll, List.foldl_append]

theorem nodup_addUsed (u : List String) (s : String) (h : u.Nodup) :
    (addUsed u s).Nodup := by
  unfold addUsed
  split
  case isTrue _ => exact h
  case isFalse hn => simp [List.nodup_append, h, hn]

theorem nodup_addAll (ts : List String) :
    ∀ u : List String, u.Nodup → (addAll u ts).Nodup := by
  induction ts with
  | nil => intro u h; exact h
  | cons s ss ih => intro u h; exact ih (addUsed u s) (nodup_addUsed u s h)

/-! ### Characterization of the box loop -/

theorem boxFold_char (sX sY top : JNum) (cbt sl : Bool) (m : List BoundingBox) :
    ∀ u dr ops,
      (m.foldl (processBox sX sY top cbt sl) (u, dr, ops)).1
          = addAll u ((drawnOf sX sY top cbt m).map DrawnBox.type)
      ∧ (m.foldl (processBox sX sY top cbt sl) (u, dr, ops)).2.1
          = dr ++ drawnOf sX sY top cbt m
      ∧ ∃ ex, (m.foldl (processBox sX sY top cbt sl) (u, dr, ops)).2.2 = ops ++ ex := by
  induction m with
  | nil =>
    intro u dr ops
    refine ⟨rfl, by simp [drawnOf], ⟨[], by simp⟩⟩
  | cons b bs ih =>
    intro u dr ops
    simp only [List.foldl_cons]
    cases hdb : drawOfBox sX sY top cbt b with
    | none =>
      have hstep : processBox sX sY top cbt sl (u, dr, ops) b = (u, dr, ops) := by
        unfold processBox
        rw [hdb]
      rw [hstep]
      have hd : drawnOf sX sY top cbt (b :: bs) = drawnOf sX sY top cbt bs := by
        unfold drawnOf
        rw [List.filterMap_cons_none hdb]
      rw [hd]
      exact ih u dr ops
    | some d =>
      have hstep : processBox sX sY top cbt sl (u, dr, ops) b
          = (addUsed u d.type, dr ++ [d], ops ++ boxOps sl d) := by
        unfold processBox
        rw [hdb]
      rw [hstep]
      have hd : drawnOf sX sY top cbt (b :: bs) = d :: drawnOf sX sY top cbt bs := by
        unfold drawnOf
        rw [List.filterMap_cons_some hdb]
      rw [hd]
      obtain ⟨h1, h2, ⟨ex, h3⟩⟩ := ih (addUsed u d.type) (dr ++ [d]) (ops ++ boxOps sl d)
      refine ⟨?_, ?_, ⟨boxOps sl d ++ ex, ?_⟩⟩
      · rw [h1]; rfl
      · rw [h2]; simp
      · rw [h3]; simp

/-! ### Characterization of the section loop -/

theorem foldl_height_shift (t : List Section) :
    ∀ a : ℚ, t.foldl (fun acc s => acc + s.height) a = a + sumHeights t := by
  induction t with
  | nil => intro a; simp [sumHeights]
  | cons s t ih =>
    intro a
    simp only [List.foldl_cons]
    rw [ih, show sumHeights (s :: t) = List.foldl (fun acc s => acc + s.height) (0 + s.height) t from rfl,
      ih (0 + s.height)]
    ring

theorem sumHeights_cons (s : Section) (t : List Section) :
    sumHeights (s :: t) = s.height + sumHeights t := by
  show List.foldl _ (0 + s.height) t = _
  rw [foldl_height_shift]
  ring

theorem loop_char (cw : ℕ) (sX sY : JNum) (o : Options) (l : List Section) :
    ∀ st : LoopState,
      (l.foldl (processSection cw sX sY o) st).sectionYOffset
          = st.sectionYOffset + sumHeights l
      ∧ (l.foldl (processSection cw sX sY o) st).outSections = st.outSections ++ l
      ∧ (l.foldl (processSection cw sX sY o) st).sectionTops
          = st.sectionTops
              ++ (offsetList st.sectionYOffset l).map (fun q => JNum.jmulF q sY)
      ∧ (l.foldl (processSection cw sX sY o) st).drawnBoxes
          = st.drawnBoxes
              ++ drawnOfSections sX sY o.colorByType st.sectionYOffset l
      ∧ (l.foldl (processSection cw sX sY o) st).usedTypes
          = addAll st.usedTypes
              ((drawnOfSections sX sY o.colorByType st.sectionYOffset l).map DrawnBox.type)
      ∧ ∃ ex, (l.foldl (processSection cw sX sY o) st).ops = st.ops ++ ex := by
  induction l with
  | nil =>
    intro st
    refine ⟨by simp [sumHeights], by simp, by simp [offsetList], by simp [drawnOfSections],
      by simp [drawnOfSections, addAll], ⟨[], by simp⟩⟩
  | cons s rest ih =>
    intro st
    simp only [List.foldl_cons]
    -- characterize the single step
    have hstep :
        (processSection cw sX sY o st s).sectionYOffset = st.sectionYOffset + s.height
        ∧ (processSection cw sX sY o st s).outSections = st.outSections ++ [s]
        ∧ (processSection cw sX sY o st s).sectionTops
            = st.sectionTops ++ [JNum.jmulF st.sectionYOffset sY]
        ∧ (processSection cw sX sY o st s).drawnBoxes
            = st.drawnBoxes
                ++ (match s.bounding_boxes with
                    | some bs => drawnOf sX sY (JNum.jmulF st.sectionYOffset sY)
                        o.colorByType (sortBoxes bs)
                    | none => [])
        ∧ (processSection cw sX sY o st s).usedTypes
            = addAll st.usedTypes
                ((match s.bounding_boxes with
                  | some bs => drawnOf sX sY (JNum.jmulF st.sectionYOffset sY)
                      o.colorByType (sortBoxes bs)
                  | none => []).map DrawnBox.type)
        ∧ ∃ ex, (processSection cw sX sY o st s).ops = st.ops ++ ex := by
      cases hbb : s.bounding_boxes with
      | none =>
        unfold processSection
        rw [hbb]
        exact ⟨rfl, rfl, rfl, by simp, by simp [addAll], ⟨_, rfl⟩⟩
      | some bs =>
        unfold processSection
        rw [hbb]
        obtain ⟨h1, h2, ⟨ex, h3⟩⟩ :=
          boxFold_char sX sY (JNum.jmulF st.sectionYOffset sY) o.colorByType o.showLabels
            (sortBoxes bs) st.usedTypes st.drawnBoxes
            (st.ops ++ sectionHeaderOps cw sY o.showSections st.sectionYOffset s)
        refine ⟨rfl, rfl, rfl, by simpa using h2, by simpa using h1, ?_⟩
        exact ⟨sectionHeaderOps cw sY o.showSections st.sectionYOffset s ++ ex,
          by simpa [List.append_assoc] using h3⟩
    obtain ⟨s1, s2, s3, s4, s5, ⟨ex1, s6⟩⟩ := hstep
    obtain ⟨r1, r2, r3, r4, r5, ⟨ex2, r6⟩⟩ := ih (processSection cw sX sY o st s)
    refine ⟨?_, ?_, ?_, ?_, ?_, ?_⟩
    · rw [r1, s1, sumHeights_cons]; ring
    · rw [r2, s2]; simp
    · rw [r3, s3, s1]
      show _ = st.sectionTops ++ List.map _ (offsetList st.sectionYOffset (s :: rest))
      rw [show offsetList st.sectionYOffset (s :: rest)
          = st.sectionYOffset :: offsetList (st.sectionYOffset + s.height) rest from rfl]
      simp
    · rw [r4, s4, s1]
      show _ = st.drawnBoxes
          ++ drawnOfSections sX sY o.colorByType st.sectionYOffset (s :: rest)
      rw [show drawnOfSections sX sY o.colorByType st.sectionYOffset (s :: rest)
          = (match s.bounding_boxes with
             | some bs => drawnOf sX sY (JNum.jmulF st.sectionYOffset sY)
                 o.colorByType (sortBoxes bs)
             | none => []) ++
              drawnOfSections sX sY o.colorByType (st.sectionYOffset + s.height) rest
          from rfl]
      simp
    · rw [r5, s5, s1]
      show _ = addAll st.usedTypes
          ((drawnOfSections sX sY o.colorByType st.sectionYOffset (s :: rest)).map DrawnBox.type)
      rw [show drawnOfSections sX sY o.colorByType st.sectionYOffset (s :: rest)
          = (match s.bounding_boxes with
             | some bs => drawnOf sX sY (JNum.jmulF st.sectionYOffset sY)
                 o.colorByType (sortBoxes bs)
             | none => []) ++
              drawnOfSections sX sY o.colorByType (st.sectionYOffset + s.height) rest
          from rfl]
      rw [List.map_append, addAll_append]
    · exact ⟨ex1 ++ ex2, by rw [r6, s6, List.append_assoc]⟩

/-! ### Lemmas about vertical offsets -/

theorem offsetList_eq (l : List Section) :
    ∀ start : ℚ, offsetList start l
      = (List.range l.length).map (fun i => start + sumHeights (l.take i)) := by
  induction l with
  | nil => intro start; simp [offsetList]
  | cons s rest ih =>
    intro start
    show start :: offsetList (start + s.height) rest = _
    rw [ih (start + s.height), List.length_cons, List.range_succ_eq_map,
      List.map_cons, List.map_map]
    congr 1
    · simp [sumHeights]
    · congr 1
      funext i
      simp only [Function.comp_apply, List.take_succ_cons, sumHeights_cons]
      ring

theorem chain_offsetList (l : List Section) :
    (∀ s ∈ l, 0 ≤ s.height) → ∀ start : ℚ,
      List.Chain' (fun a b => a ≤ b) (offsetList start l) := by
  induction l with
  | nil => intro _ start; simp [offsetList]
  | cons s rest ih =>
    intro h start
    show List.Chain' _ (start :: offsetList (start + s.height) rest)
    rw [List.chain'_cons']
    refine ⟨?_, ih (fun x hx => h x (by simp [hx])) (start + s.height)⟩
    intro y hy
    cases rest with
    | nil => simp [offsetList] at hy
    | cons r rs =>
      simp only [offsetList, List.head?_cons, Option.mem_def, Option.some_inj] at hy
      subst hy
      have hs := h s (by simp)
      linarith

theorem sumHeights_nonneg (l : List Section)
    (h : ∀ s ∈ l, 0 ≤ s.height) : 0 ≤ sumHeights l := by
  induction l with
  | nil => simp [sumHeights]
  | cons s rest ih =>
    rw [sumHeights_cons]
    exact add_nonneg (h s (by simp)) (ih (fun x hx => h x (by simp [hx])))

theorem sumHeights_pos (l : List Section) (hne : l ≠ [])
    (h : ∀ s ∈ l, 0 < s.height) : 0 < sumHeights l := by
  cases l with
  | nil => exact absurd rfl hne
  | cons s rest =>
    rw [sumHeights_cons]
    exact add_pos_of_pos_of_nonneg (h s (by simp))
      (sumHeights_nonneg rest (fun x hx => le_of_lt (h x (by simp [hx]))))

/-! ### Lemmas about drawn boxes -/

theorem drawnOf_length (sX sY top : JNum) (cbt : Bool) (m : List BoundingBox) :
    (drawnOf sX sY top cbt m).length
      = m.countP (fun b => b.box_2d.isSome && b.element.isSome) := by
  induction m with
  | nil => rfl
  | cons b bs ih =>
    cases hb2 : b.box_2d <;> cases he : b.element <;>
      simp [drawnOf, drawOfBox, hb2, he, List.filterMap_cons, List.countP_cons] <;>
      simpa [drawnOf] using ih

theorem drawnOfSections_length (sX sY : JNum) (cbt : Bool) (l : List Section) :
    ∀ start : ℚ, (drawnOfSections sX sY cbt start l).length
      = (l.map sectionWfCount).sum := by
  induction l with
  | nil => intro start; rfl
  | cons s rest ih =>
    intro start
    show ((match s.bounding_boxes with
           | some bs => drawnOf sX sY (JNum.jmulF start sY) cbt (sortBoxes bs)
           | none => []) ++
            drawnOfSections sX sY cbt (start + s.height) rest).length = _
    rw [List.length_append, ih (start + s.height)]
    cases hbb : s.bounding_boxes with
    | none => simp [sectionWfCount, hbb]
    | some bs =>
      simp only [List.map_cons, List.sum_cons, drawnOf_length, sectionWfCount, hbb]
      rw [(sortBoxes_perm bs).countP_eq]

theorem color_drawnOf {d : DrawnBox} (sX sY top : JNum) (m : List BoundingBox)
    (h : d ∈ drawnOf sX sY top false m) : d.color = "#ff4444" := by
  obtain ⟨b, _, hdb⟩ := List.mem_filterMap.mp h
  unfold drawOfBox at hdb
  split at hdb
  · cases hdb
    rfl
  · simp at hdb

theorem color_drawnOfSections {d : DrawnBox} (sX sY : JNum) (l : List Section)
    (start : ℚ) (h : d ∈ drawnOfSections sX sY false start l) :
    d.color = "#ff4444" := by
  induction l generalizing start with
  | nil => simp [drawnOfSections] at h
  | cons s rest ih =>
    rw [show drawnOfSections sX sY false start (s :: rest)
        = (match s.bounding_boxes with
           | some bs => drawnOf sX sY (JNum.jmulF start sY) false (sortBoxes bs)
           | none => []) ++
            drawnOfSections sX sY false (start + s.height) rest from rfl] at h
    rcases List.mem_append.mp h with ha | hb
    · cases hbb : s.bounding_boxes with
      | none => rw [hbb] at ha; simp at ha
      | some bs =>
        rw [hbb] at ha
        exact color_drawnOf _ _ _ _ ha
    · exact ih (start + s.height) hb

theorem type_mem_wfTypesOf {d : DrawnBox} (sX sY : JNum) (cbt : Bool)
    (l : List Section) (start : ℚ)
    (h : d ∈ drawnOfSections sX sY cbt start l) : d.type ∈ wfTypesOf l := by
  induction l generalizing start with
  | nil => simp [drawnOfSections] at h
  | cons s rest ih =>
    rw [show drawnOfSections sX sY cbt start (s :: rest)
        = (match s.bounding_boxes with
           | some bs => drawnOf sX sY (JNum.jmulF start sY) cbt (sortBoxes bs)
           | none => []) ++
            drawnOfSections sX sY cbt (start + s.height) rest from rfl] at h
    rw [show wfTypesOf (s :: rest)
        = (match s.bounding_boxes with
           | some bs =>
               bs.filterMap (fun b =>
                 match b.box_2d, b.element with
                 | some _, some e => some e.type
                 | _, _ => none)
           | none => []) ++ wfTypesOf rest from rfl]
    rcases List.mem_append.mp h with ha | hb
    · apply List.mem_append_left
      cases hbb : s.bounding_boxes with
      | none => rw [hbb] at ha; simp at ha
      | some bs =>
        rw [hbb] at ha
        obtain ⟨b, hbmem, hdb⟩ := List.mem_filterMap.mp ha
        have hbmem' : b ∈ bs := (sortBoxes_perm bs).mem_iff.mp hbmem
        unfold drawOfBox at hdb
        split at hdb
        case _ bd e hb2 he =>
          apply List.mem_filterMap.mpr
          refine ⟨b, hbmem', ?_⟩
          rw [hb2, he]
          cases hdb
          rfl
        case _ => simp at hdb
    · exact List.mem_append_right _ (ih (start + s.height) hb)

/-! ### Characterization of a whole render -/

theorem drawWithImage_char (img : Img) (layout : Layout) (o : Options) :
    (drawWithImage img layout o).scaleX
        = JNum.jdiv (img.width : ℚ) layout.page_width
    ∧ (drawWithImage img layout o).scaleY
        = JNum.jdiv (img.height : ℚ) (sumHeights layout.sections)
    ∧ (drawWithImage img layout o).finalYOffset = sumHeights layout.sections
    ∧ (drawWithImage img layout o).finalLayout = layout
    ∧ (drawWithImage img layout o).sectionTops
        = (offsetList 0 layout.sections).map
            (fun q => JNum.jmulF q
              (JNum.jdiv (img.height : ℚ) (sumHeights layout.sections)))
    ∧ (drawWithImage img layout o).drawnBoxes
        = drawnOfSections (JNum.jdiv (img.width : ℚ) layout.page_width)
            (JNum.jdiv (img.height : ℚ) (sumHeights layout.sections))
            o.colorByType 0 layout.sections
    ∧ (drawWithImage img layout o).usedTypes
        = firstSeen ((drawWithImage img layout o).drawnBoxes.map DrawnBox.type)
    ∧ (drawWithImage img layout o).legend
        = updateLegend (drawWithImage img layout o).usedTypes o.colorByType := by
  obtain ⟨h1, h2, h3, h4, h5, -⟩ := loop_char img.width
    (JNum.jdiv (img.width : ℚ) layout.page_width)
    (JNum.jdiv (img.height : ℚ) (sumHeights layout.sections)) o layout.sections
    { sectionYOffset := 0, usedTypes := [], drawnBoxes := [], sectionTops := []
      outSections := [],
      ops := [CanvasOp.setSize img.width img.height, CanvasOp.drawImage] }
  refine ⟨rfl, rfl, by simpa [drawWithImage] using h1, ?_, by simpa [drawWithImage] using h3,
    by simpa [drawWithImage] using h4, ?_, rfl⟩
  · show Layout.mk layout.page_width
      (List.foldl (processSection img.width _ _ o)
        { sectionYOffset := 0, usedTypes := [], drawnBoxes := [], sectionTops := []
          outSections := [],
          ops := [CanvasOp.setSize img.width img.height, CanvasOp.drawImage] }
        layout.sections).outSections = layout
    rw [h2]
    simp
  · show (List.foldl (processSection img.width _ _ o) _ layout.sections).usedTypes
      = firstSeen ((List.foldl (processSection img.width _ _ o) _
          layout.sections).drawnBoxes.map DrawnBox.type)
    rw [h5, h4]
    simp [firstSeen]

/-! ### The claims -/

/-- Input exhibiting the missing validation: `page_width` is zero. -/
def layoutC1 : Layout :=
  { page_width := 0,
    sections := [{ name := "Hero", height := 500,
                   bounding_boxes := some [{ box_2d := some ⟨10, 0, 500, 100⟩,
                                             element := some ⟨"text"⟩,
                                             z_index := some 1 }] }] }

/-- Claim C1 (code bug): the spec requires `drawWithImage` to signal an
error for `page_width ≤ 0`, empty `sections`, or zero total height, and
never to proceed with infinite or NaN scale factors.  The code performs no
validation: with `page_width = 0` it computes `scaleX = Infinity`
(division by zero at line 180), signals nothing, and proceeds to draw the
box at `x = Infinity`. -/
theorem C1_code_bug :
    (drawWithImage ⟨2000, 1000⟩ layoutC1 ⟨false, false, false⟩).scaleX = JNum.inf
    ∧ (drawWithImage ⟨2000, 1000⟩ layoutC1 ⟨false, false, false⟩).drawnBoxes.map
        DrawnBox.x = [JNum.inf]
    ∧ (drawWithImage ⟨2000, 1000⟩ layoutC1 ⟨false, false, false⟩).drawnBoxes.length
        = 1 := by
  decide

/-- Input exhibiting the missing validation: `sections` is empty. -/
def layoutC2 : Layout := { page_width := 1000, sections := [] }

/-- Claim C2 (code bug): the spec requires document-level errors to be
detected before any drawing begins, with the target neither resized nor
drawn into.  The code resizes the canvas (lines 176-177) and draws the base
image (line 184) before any property of the document other than
`sections.reduce` is consulted: for the invalid empty-`sections` document
the canvas is resized to 2000x1000, the image is drawn, `scaleY` is
`Infinity`, and no error is signalled. -/
theorem C2_code_bug :
    (drawWithImage ⟨2000, 1000⟩ layoutC2 ⟨false, false, false⟩).ops
        = [CanvasOp.setSize 2000 1000, CanvasOp.drawImage]
    ∧ (drawWithImage ⟨2000, 1000⟩ layoutC2 ⟨false, false, false⟩).canvasWidth = 2000
    ∧ (drawWithImage ⟨2000, 1000⟩ layoutC2 ⟨false, false, false⟩).canvasHeight = 1000
    ∧ (drawWithImage ⟨2000, 1000⟩ layoutC2 ⟨false, false, false⟩).scaleY = JNum.inf := by
  decide

/-- The document of the end-to-end scenario of the spec. -/
def layoutC3 : Layout :=
  { page_width := 1000,
    sections := [{ name := "Hero", height := 500,
                   bounding_boxes := some [{ box_2d := some ⟨0, 0, 500, 100⟩,
                                             element := some ⟨"text"⟩,
                                             z_index := some 1 }] }] }

/-- Claim C3 (confirmed): rendering the spec's end-to-end document against a
2000x1000 image yields `scaleX = 2`, `scaleY = 2`, and the box pixel
rectangle `{x: 0, y: 0, width: 1000, height: 200}`. -/
theorem C3_scenario :
    (drawWithImage ⟨2000, 1000⟩ layoutC3 ⟨false, false, false⟩).scaleX = JNum.fin 2
    ∧ (drawWithImage ⟨2000, 1000⟩ layoutC3 ⟨false, false, false⟩).scaleY = JNum.fin 2
    ∧ (drawWithImage ⟨2000, 1000⟩ layoutC3 ⟨false, false, false⟩).drawnBoxes.map
        (fun d => (d.x, d.y, d.width, d.height))
        = [(JNum.fin 0, JNum.fin 0, JNum.fin 1000, JNum.fin 200)] := by
  norm_num [drawWithImage, processSection, sectionHeaderOps, processBox, drawOfBox,
    drawRec, sortBoxes, insertZ, zLtB, sumHeights, JNum.jdiv, JNum.jmulF, JNum.jadd,
    chooseColor, lookupColor, TYPE_COLORS, addUsed, boxOps, updateLegend, layoutC3]

/-- Claim C4 (confirmed): for positive section heights, the vertical scale
factor is `H_px / sum(heights)`, each section's pixel offset is `scaleY`
times the sum of the preceding heights, these offsets are monotonically
non-decreasing, and the offset accumulated after the last section, scaled,
is exactly `H_px` (exact here because the model computes in ℚ; the source
computes in floating point, which the claim allows for). -/
theorem C4_offsets (img : Img) (layout : Layout) (o : Options)
    (hne : layout.sections ≠ [])
    (hpos : ∀ s ∈ layout.sections, 0 < s.height) :
    (drawWithImage img layout o).scaleY
        = JNum.fin ((img.height : ℚ) / sumHeights layout.sections)
    ∧ (drawWithImage img layout o).sectionTops
        = (List.range layout.sections.length).map
            (fun i => JNum.fin ((img.height : ℚ) / sumHeights layout.sections
                * sumHeights (layout.sections.take i)))
    ∧ List.Chain' (fun a b => JNum.jle a b = true)
        (drawWithImage img layout o).sectionTops
    ∧ JNum.jmulF (drawWithImage img layout o).finalYOffset
        (drawWithImage img layout o).scaleY = JNum.fin (img.height : ℚ) := by
  obtain ⟨-, hsY, hfyo, -, htops, -⟩ := drawWithImage_char img layout o
  have htot : sumHeights layout.sections ≠ 0 :=
    ne_of_gt (sumHeights_pos _ hne hpos)
  have hjd : JNum.jdiv (img.height : ℚ) (sumHeights layout.sections)
      = JNum.fin ((img.height : ℚ) / sumHeights layout.sections) := by
    unfold JNum.jdiv
    rw [if_neg htot]
  have hsq : 0 ≤ (img.height : ℚ) / sumHeights layout.sections :=
    div_nonneg (Nat.cast_nonneg _) (le_of_lt (sumHeights_pos _ hne hpos))
  have htops' : (drawWithImage img layout o).sectionTops
      = (List.range layout.sections.length).map
          (fun i => JNum.fin ((img.height : ℚ) / sumHeights layout.sections
              * sumHeights (layout.sections.take i))) := by
    rw [htops, hjd, offsetList_eq, List.map_map]
    congr 1
    funext i
    simp only [Function.comp_apply, JNum.jmulF]
    rw [zero_add, mul_comm]
  refine ⟨by rw [hsY, hjd], htops', ?_, ?_⟩
  · rw [htops, hjd]
    rw [List.chain'_map]
    refine (chain_offsetList layout.sections
      (fun s hs => le_of_lt (hpos s hs)) 0).imp ?_
    intro a b hab
    simp only [JNum.jmulF, JNum.jle, decide_eq_true_eq]
    exact mul_le_mul_of_nonneg_right hab hsq
  · rw [hfyo, hsY, hjd]
    simp only [JNum.jmulF, JNum.fin.injEq]
    rw [mul_comm, div_mul_cancel₀ _ htot]

/-- Concrete image and document for the C4 witness. -/
def imgC4 : Img := ⟨800, 1000⟩

/-- Concrete document for the C4 witness (total height 500). -/
def layoutC4 : Layout :=
  { page_width := 1000,
    sections := [{ name := "A", height := 300, bounding_boxes := none },
                 { name := "B", height := 200, bounding_boxes := some [] }] }

/-- Witness for C4 at a concrete two-section document. -/
theorem C4_offsets_witness :
    (drawWithImage imgC4 layoutC4 ⟨false, false, false⟩).scaleY
      = JNum.fin ((imgC4.height : ℚ) / sumHeights layoutC4.sections) :=
  (C4_offsets imgC4 layoutC4 ⟨false, false, false⟩ (by decide) (by decide)).1

/-- Claim C5 (confirmed): the per-section sort of line 217 orders boxes by
ascending numeric `z_index`, is a permutation, and is stable — the boxes
with any given `z_index` value appear in the output in exactly their
original input order. -/
theorem C5_sort_stable (l : List BoundingBox)
    (h : ∀ b ∈ l, b.z_index.isSome) :
    List.Chain' (fun a b => a.z_index.getD 0 ≤ b.z_index.getD 0) (sortBoxes l)
    ∧ (∀ k : ℚ, (sortBoxes l).filter (zEqB k) = l.filter (zEqB k))
    ∧ List.Perm (sortBoxes l) l :=
  ⟨chain_sortBoxes l h, fun k => filter_sortBoxes k l, sortBoxes_perm l⟩

/-- Concrete box list for the C5 witness: two boxes share `z_index = 1`. -/
def boxesC5 : List BoundingBox :=
  [⟨some ⟨0, 0, 1, 1⟩, some ⟨"svg"⟩, some 2⟩,
   ⟨some ⟨0, 0, 2, 2⟩, some ⟨"map"⟩, some 1⟩,
   ⟨some ⟨0, 0, 3, 3⟩, some ⟨"video"⟩, some 1⟩]

/-- Witness for C5 at a concrete list with a `z_index` tie. -/
theorem C5_sort_stable_witness :
    List.Chain' (fun a b => a.z_index.getD 0 ≤ b.z_index.getD 0) (sortBoxes boxesC5)
    ∧ (sortBoxes boxesC5).filter (zEqB 1) = boxesC5.filter (zEqB 1) :=
  ⟨(C5_sort_stable boxesC5 (by decide)).1,
   (C5_sort_stable boxesC5 (by decide)).2.1 1⟩

/-- Claim C6 counterexample: a box with missing `z_index` does NOT sort as a
box with `z_index = 0` would.  The comparator `a.z_index - b.z_index`
evaluates to `NaN`, which the sort treats as "equal", so the first box
keeps its position even though the second has `z_index = -1`; replacing the
missing `z_index` by `0` instead moves the `-1` box in front. -/
theorem C6_counterexample :
    (⟨some ⟨0, 0, 10, 10⟩, some ⟨"text"⟩, none⟩ : BoundingBox).z_index = none
    ∧ sortBoxes [⟨some ⟨0, 0, 10, 10⟩, some ⟨"text"⟩, none⟩,
                 ⟨some ⟨0, 0, 10, 10⟩, some ⟨"button"⟩, some (-1)⟩]
        = [⟨some ⟨0, 0, 10, 10⟩, some ⟨"text"⟩, none⟩,
           ⟨some ⟨0, 0, 10, 10⟩, some ⟨"button"⟩, some (-1)⟩]
    ∧ sortBoxes [⟨some ⟨0, 0, 10, 10⟩, some ⟨"text"⟩, some 0⟩,
                 ⟨some ⟨0, 0, 10, 10⟩, some ⟨"button"⟩, some (-1)⟩]
        = [⟨some ⟨0, 0, 10, 10⟩, some ⟨"button"⟩, some (-1)⟩,
           ⟨some ⟨0, 0, 10, 10⟩, some ⟨"text"⟩, some 0⟩] := by
  decide

/-- Claim C6 as amended (proved): a missing or non-numeric `z_index` never
causes a failure; the comparator returns `NaN`, which the sort treats as
"equal" (`+0`), so such a box keeps its original position relative to every
box it is compared against — here, a leading box with missing `z_index`
stays first regardless of the other boxes' numeric `z_index` values —
rather than participating as if its `z_index` were `0`. -/
theorem C6_amended (b : BoundingBox) (l : List BoundingBox)
    (h : b.z_index = none) :
    sortBoxes (b :: l) = b :: sortBoxes l := by
  show insertZ b (sortBoxes l) = b :: sortBoxes l
  generalize sortBoxes l = m
  cases m with
  | nil => rfl
  | cons c cs => simp [insertZ, zLtB_of_none h]

/-- Witness for the amended C6. -/
theorem C6_amended_witness :
    sortBoxes [(⟨some ⟨0, 0, 10, 10⟩, some ⟨"gallery"⟩, none⟩ : BoundingBox),
               ⟨some ⟨0, 0, 10, 10⟩, some ⟨"button"⟩, some (-1)⟩]
      = (⟨some ⟨0, 0, 10, 10⟩, some ⟨"gallery"⟩, none⟩ : BoundingBox)
          :: sortBoxes [⟨some ⟨0, 0, 10, 10⟩, some ⟨"button"⟩, some (-1)⟩] :=
  C6_amended _ _ rfl

/-- Claim C7 (confirmed): entries lacking `box_2d` or `element` are skipped
without any error (the embedding is total), they contribute nothing — the
number of drawn boxes is exactly the number of well-formed entries — and
every type in the used-types set comes from a well-formed entry. -/
theorem C7_malformed_skipped (img : Img) (layout : Layout) (o : Options) :
    (drawWithImage img layout o).drawnBoxes.length
        = (layout.sections.map sectionWfCount).sum
    ∧ ∀ t ∈ (drawWithImage img layout o).usedTypes, t ∈ wfTypes layout := by
  obtain ⟨-, -, -, -, -, hdrawn, hused, -⟩ := drawWithImage_char img layout o
  constructor
  · rw [hdrawn, drawnOfSections_length]
  · intro t ht
    rw [hused, hdrawn] at ht
    rcases (mem_addAll _ _).mp ht with h0 | hmem
    · simp at h0
    · obtain ⟨d, hd, rfl⟩ := List.mem_map.mp hmem
      exact type_mem_wfTypesOf _ _ _ _ _ hd

/-- Concrete document for the C7 witness: one entry lacks `box_2d`, one
lacks `element`, one is well-formed. -/
def layoutC7 : Layout :=
  { page_width := 100,
    sections := [{ name := "S", height := 50,
                   bounding_boxes := some
                     [{ box_2d := none, element := some ⟨"video"⟩, z_index := some 1 },
                      { box_2d := some ⟨0, 0, 10, 10⟩, element := none, z_index := some 2 },
                      { box_2d := some ⟨0, 0, 10, 10⟩, element := some ⟨"text"⟩,
                        z_index := some 3 }] }] }

/-- Witness for C7: the surviving type of the well-formed entry. -/
theorem C7_malformed_skipped_witness : "text" ∈ wfTypes layoutC7 :=
  (C7_malformed_skipped ⟨100, 100⟩ layoutC7 ⟨false, false, true⟩).2 "text" (by decide)

/-- Concrete document for C8: a known type and an unknown type. -/
def layoutC8 : Layout :=
  { page_width := 100,
    sections := [{ name := "S", height := 100,
                   bounding_boxes := some
                     [{ box_2d := some ⟨0, 0, 10, 10⟩, element := some ⟨"button"⟩,
                        z_index := some 1 },
                      { box_2d := some ⟨0, 0, 10, 10⟩, element := some ⟨"widget"⟩,
                        z_index := some 2 }] }] }

/-- Claim C8 (confirmed): with `colorByType = false` every drawn box uses
the single fixed colour `#ff4444`; with `colorByType = true` the known type
`button` resolves to its palette colour `#44ff44` for both the box and its
legend entry, and the unknown type `widget` resolves to the fallback
`#ff4444` for both. -/
theorem C8_colors :
    (∀ (img : Img) (layout : Layout) (sl ss : Bool) (d : DrawnBox),
        d ∈ (drawWithImage img layout ⟨sl, ss, false⟩).drawnBoxes →
          d.color = "#ff4444")
    ∧ chooseColor true "button" = "#44ff44"
    ∧ chooseColor true "widget" = "#ff4444"
    ∧ (drawWithImage ⟨200, 200⟩ layoutC8 ⟨false, false, true⟩).drawnBoxes.map
        (fun d => (d.type, d.color))
        = [("button", "#44ff44"), ("widget", "#ff4444")]
    ∧ (drawWithImage ⟨200, 200⟩ layoutC8 ⟨false, false, true⟩).legend
        = [("button", "#44ff44"), ("widget", "#ff4444")] := by
  refine ⟨?_, by decide, by decide, ?_, ?_⟩
  · intro img layout sl ss d hd
    rw [(drawWithImage_char img layout ⟨sl, ss, false⟩).2.2.2.2.2.1] at hd
    exact color_drawnOfSections _ _ _ _ hd
  · decide
  · decide

/-- Witness for C8: the known-type box of `layoutC8`, rendered with
`colorByType = false`, is drawn in the fixed colour. -/
theorem C8_colors_witness :
    (DrawnBox.mk "button" "#ff4444" (JNum.fin 0) (JNum.fin 0)
      (JNum.fin 20) (JNum.fin 20)).color = "#ff4444" :=
  C8_colors.1 ⟨200, 200⟩ layoutC8 false false _
    (by norm_num [drawWithImage, processSection, sectionHeaderOps, processBox,
      drawOfBox, drawRec, sortBoxes, insertZ, zLtB, sumHeights, JNum.jdiv,
      JNum.jmulF, JNum.jadd, chooseColor, lookupColor, TYPE_COLORS, addUsed,
      boxOps, updateLegend, layoutC8])

/-- Claim C9 (confirmed): a render never mutates the layout document.  The
only in-place operation the source applies near the document is the sort at
line 217, which operates on the spread copy `[...section.bounding_boxes]`;
the document that emerges from the section loop is the input document. -/
theorem C9_immutable (img : Img) (layout : Layout) (o : Options) :
    (drawWithImage img layout o).finalLayout = layout :=
  (drawWithImage_char img layout o).2.2.2.1

/-- Claim C10 (confirmed): with `colorByType` enabled, the used-types set
is exactly the deduplicated (first occurrence kept) sequence of the drawn
boxes' types in draw order — sections in document order, boxes in sorted
order — with no duplicates, and when at least one box was drawn the legend
pairs each used type, in that order, with its resolved colour. -/
theorem C10_legend (img : Img) (layout : Layout) (sl ss : Bool) :
    (drawWithImage img layout ⟨sl, ss, true⟩).usedTypes
        = firstSeen ((drawWithImage img layout ⟨sl, ss, true⟩).drawnBoxes.map
            DrawnBox.type)
    ∧ (drawWithImage img layout ⟨sl, ss, true⟩).usedTypes.Nodup
    ∧ (∀ t, t ∈ (drawWithImage img layout ⟨sl, ss, true⟩).usedTypes
          ↔ t ∈ (drawWithImage img layout ⟨sl, ss, true⟩).drawnBoxes.map
              DrawnBox.type)
    ∧ ((drawWithImage img layout ⟨sl, ss, true⟩).drawnBoxes ≠ [] →
        (drawWithImage img layout ⟨sl, ss, true⟩).legend
          = (drawWithImage img layout ⟨sl, ss, true⟩).usedTypes.map
              (fun t => (t, (lookupColor t).getD "#ff4444"))) := by
  obtain ⟨-, -, -, -, -, -, hused, hleg⟩ :=
    drawWithImage_char img layout ⟨sl, ss, true⟩
  refine ⟨hused, ?_, ?_, ?_⟩
  · rw [hused]
    exact nodup_addAll _ [] List.nodup_nil
  · intro t
    rw [hused]
    show t ∈ addAll [] _ ↔ _
    rw [mem_addAll]
    simp
  · intro hne
    obtain ⟨d, ds, hdds⟩ : ∃ d ds,
        (drawWithImage img layout ⟨sl, ss, true⟩).drawnBoxes = d :: ds := by
      cases hdb : (drawWithImage img layout ⟨sl, ss, true⟩).drawnBoxes with
      | nil => exact absurd hdb hne
      | cons d ds => exact ⟨d, ds, rfl⟩
    have ht : d.type ∈ (drawWithImage img layout ⟨sl, ss, true⟩).usedTypes := by
      rw [hused]
      show d.type ∈ addAll [] _
      rw [mem_addAll]
      exact Or.inr (by rw [hdds]; simp)
    rw [hleg]
    unfold updateLegend
    cases hut : (drawWithImage img layout ⟨sl, ss, true⟩).usedTypes with
    | nil => rw [hut] at ht; simp at ht
    | cons a as => simp

/-- Concrete document for the C10 witness. -/
def layoutC10 : Layout :=
  { page_width := 100,
    sections := [{ name := "S", height := 100,
                   bounding_boxes := some
                     [{ box_2d := some ⟨0, 0, 10, 10⟩, element := some ⟨"image"⟩,
                        z_index := some 1 }] }] }

/-- Witness for C10: with one drawn box, the legend is the used-types map. -/
theorem C10_legend_witness :
    (drawWithImage ⟨100, 100⟩ layoutC10 ⟨false, false, true⟩).legend
      = (drawWithImage ⟨100, 100⟩ layoutC10 ⟨false, false, true⟩).usedTypes.map
          (fun t => (t, (lookupColor t).getD "#ff4444")) :=
  (C10_legend ⟨100, 100⟩ layoutC10 false false).2.2.2 (by decide)

end Drawer
